import Mathlib

/-!
Shallow embedding of the grocery-list application (`src/app.js`).

The source is a browser single-page app; its state lives in module-scoped
variables (`items`, `dark`, `listName`, `listId`) and every operation reads
input widgets and mutates that state.  Here the state is an explicit record
and each operation is a pure function from the old state (plus the values the
source reads from the DOM, the generated identifier, and the current time)
to the new state.  JavaScript strings are Lean `String`s, JS numbers that
the code actually stores (`qty`, `createdAt`) are `Int` (with `0` standing
for any falsy numeric value, since the code only ever tests them with `||`),
and JS `Date.now()` / `crypto.randomUUID()` are passed in as parameters.
-/

set_option autoImplicit false

namespace Grocery

/-- Whitespace test used by JavaScript `String.prototype.trim`
(restricted to the ASCII whitespace characters). -/
def jsIsSpace (c : Char) : Bool :=
  decide (c = ' ') || decide (c = '\t') || decide (c = '\n') ||
  decide (c = '\r') || decide (c = '\x0b') || decide (c = '\x0c')

/-- JavaScript `String.prototype.trim`: drop whitespace from both ends. -/
def jsTrim (s : String) : String :=
  ⟨((s.data.dropWhile jsIsSpace).reverse.dropWhile jsIsSpace).reverse⟩

/-- Value of a digit character. -/
def digitVal (c : Char) : Nat := c.toNat - 48

/-- Value of a list of decimal digit characters (most significant first). -/
def digitsToNat (ds : List Char) : Nat :=
  ds.foldl (fun n c => 10 * n + digitVal c) 0

/-- JavaScript `parseInt(s, 10)`: skip leading whitespace, read an optional
sign, then the longest prefix of decimal digits; `none` models `NaN`
(no digits at all). -/
def parseIntTen (s : String) : Option Int :=
  let cs := s.data.dropWhile jsIsSpace
  let signed : Int × List Char :=
    match cs with
    | '-' :: rest => (-1, rest)
    | '+' :: rest => (1, rest)
    | _ => (1, cs)
  let ds := signed.2.takeWhile Char.isDigit
  if ds.isEmpty then none else some (signed.1 * (digitsToNat ds : Int))

/-- `parseInt(s, 10) || 1` from `addItem`: `NaN` and `0` are falsy and give
`1`; any other parsed integer (including a negative one) is kept. -/
def qtyVal (s : String) : Int :=
  match parseIntTen s with
  | none => 1
  | some n => if n = 0 then 1 else n

/-- `q || 1` on an already-stored quantity (`existing.qty || 1` and
`it.qty || 1` in the source); `0` stands for every falsy numeric value. -/
def jsOr1 (q : Int) : Int := if q = 0 then 1 else q

/-- A grocery item, as stored in the `items` array. -/
structure Item where
  id : String
  name : String
  qty : Int
  category : String
  note : String
  done : Bool
  createdAt : Int
  listId : String
  deriving DecidableEq

/-- The mutable list-level state of the app (`items`, `listName`, `listId`
module variables; the theme flag is independent and only touched by
`loadState`/`toggleDark`). -/
structure ListState where
  items : List Item
  listName : String
  listId : String
  deriving DecidableEq

/-- The values `addItem` reads from the four input widgets. -/
structure AddInput where
  name : String
  qty : String
  cat : String
  note : String
  deriving DecidableEq

/-- Fixed category list `CATS` from the source. -/
def CATS : List String :=
  ["ירקות", "פירות", "חלב", "בשר ועוף", "מאפים", "משקאות", "ניקיון",
   "טואלטיקה", "קפואים", "שימורים", "מתוקים", "תבלינים", "אחרים"]

/-- Starter vocabulary `STARTER_SUGGESTIONS` from the source. -/
def STARTER_SUGGESTIONS : List String :=
  ["חלב", "לחם", "ביצים", "גבינה לבנה", "אשל", "קוטג\x27", "טחינה", "קפה",
   "סוכר", "שמן זית", "אורז", "פסטה", "טונה", "תירס", "חמאה", "יוגורט",
   "מלפפונים", "עגבניות", "בצל", "שום", "תפוחי אדמה", "בננות", "תפוחים",
   "עוף", "סטייק", "טחינה גולמית", "פיתות", "לאפה", "נייר טואלט", "סבון",
   "שמפו", "אבקת כביסה", "טבליות למדיח", "מיונז", "קטשופ", "חרדל",
   "שוקולד", "חטיפים", "ירקות מוקפאים"]

/-- The item `addItem` constructs when no unfinished item of that name
exists (`items.unshift({id: uuid(), name, qty, category: cat, note,
done: false, createdAt: Date.now(), listId})`). -/
def mkItem (inp : AddInput) (fid : String) (now : Int) (listId : String) : Item :=
  { id := fid
    name := jsTrim inp.name
    qty := qtyVal inp.qty
    category := if inp.cat = "" then "אחרים" else inp.cat
    note := jsTrim inp.note
    done := false
    createdAt := now
    listId := listId }

/-- `items.find(it => it.name === name && !it.done)` followed by the in-place
update `existing.qty = (existing.qty || 1) + qty`: returns the list with the
first unfinished item named `nm` updated, or `none` when there is no such
item. -/
def mergeFirst (l : List Item) (nm : String) (q : Int) : Option (List Item) :=
  match l with
  | [] => none
  | it :: rest =>
      if it.name = nm ∧ it.done = false then
        some ({ it with qty := jsOr1 it.qty + q } :: rest)
      else
        (mergeFirst rest nm q).map (it :: ·)

/-- `addItem` from the source: trim the name (return unchanged when empty),
coerce the quantity, merge into the first unfinished item with the same name
or unshift a fresh item.  `fid` is the identifier `uuid()` would return and
`now` is `Date.now()`. -/
def addItem (s : ListState) (inp : AddInput) (fid : String) (now : Int) : ListState :=
  let name := jsTrim inp.name
  if name = "" then s
  else
    match mergeFirst s.items name (qtyVal inp.qty) with
    | some l => { s with items := l }
    | none => { s with items := mkItem inp fid now s.listId :: s.items }

/-- `toggleDone(id)`: map over `items` flipping `done` of the matching item. -/
def toggleDone (s : ListState) (id : String) : ListState :=
  { s with items := s.items.map (fun it =>
      if it.id = id then { it with done := !it.done } else it) }

/-- `removeItem(id)`: keep the items whose identifier differs. -/
def removeItem (s : ListState) (id : String) : ListState :=
  { s with items := s.items.filter (fun it => !(decide (it.id = id))) }

/-- `clearDoneItems()`: keep the unfinished items. -/
def clearDoneItems (s : ListState) : ListState :=
  { s with items := s.items.filter (fun it => !it.done) }

/-- The identifiers currently stored in `items`. -/
def itemIds (s : ListState) : List String := s.items.map Item.id

/-- One user-level mutation, with the nondeterministic inputs of the source
(the generated identifier and the clock) carried as data. -/
inductive Op where
  | add (inp : AddInput) (fid : String) (now : Int)
  | toggle (id : String)
  | remove (id : String)
  | clear
  deriving DecidableEq

/-- Apply one operation. -/
def applyOp (s : ListState) : Op → ListState
  | .add inp fid now => addItem s inp fid now
  | .toggle id => toggleDone s id
  | .remove id => removeItem s id
  | .clear => clearDoneItems s

/-- Apply a sequence of operations, oldest first. -/
def applyOps (s : ListState) (ops : List Op) : ListState :=
  ops.foldl applyOp s

/-- The identifier an `add` operation carries is not already present
(the contract of `uuid()`); other operations generate no identifier. -/
def opFresh (s : ListState) : Op → Bool
  | .add _ fid _ => !(decide (fid ∈ itemIds s))
  | _ => true

/-- Every `add` along the run supplies an identifier fresh for the state it
is applied to. -/
def freshIds : ListState → List Op → Bool
  | _, [] => true
  | s, op :: rest => opFresh s op && freshIds (applyOp s op) rest

/-- A parsed import document.  `parseError` models `JSON.parse` throwing on
`reader.result`; `parsed arr nm lid` models a successful parse, where `arr`
is `none` when `data.items` is absent or not an array, and `nm`/`lid` are
`data.listName`/`data.listId` with `""` standing for every falsy value
(absent field or empty string). -/
inductive ImportDoc where
  | parseError
  | parsed (arr : Option (List Item)) (nm : String) (lid : String)
  deriving DecidableEq

/-- The user-visible outcome of an import: success, the invalid-file alert
(`'קובץ לא תקין'`), or the load-error alert (`'שגיאה בטעינת הקובץ'`). -/
inductive ImportOutcome where
  | ok
  | invalidFile
  | loadError
  deriving DecidableEq

/-- `data.items.map(it => ({...it, id: it.id || uuid()}))`: give every item
lacking an identifier (falsy `id`, modelled `""`) a fresh one; `g` supplies
the generated identifiers by position. -/
def assignIds : List Item → (Nat → String) → Nat → List Item
  | [], _, _ => []
  | it :: rest, g, n =>
      (if it.id = "" then { it with id := g n } else it) :: assignIds rest g (n + 1)

/-- `importJSON` from the source, over an already-parsed document: on parse
failure or a non-array `items` field the state is returned unchanged with
the corresponding alert; otherwise the items (with identifiers ensured)
replace the list and `listName`/`listId` are adopted when truthy. -/
def importJSON (s : ListState) (doc : ImportDoc) (g : Nat → String) :
    ListState × ImportOutcome :=
  match doc with
  | .parseError => (s, .loadError)
  | .parsed none _ _ => (s, .invalidFile)
  | .parsed (some raw) nm lid =>
      ({ items := assignIds raw g 0
         listName := if nm = "" then s.listName else nm
         listId := if lid = "" then s.listId else lid }, .ok)

/-- The document `exportJSON` serializes (`{version: 1, listName, listId,
items}`), viewed after the JSON value round-trip `parse(serialize(·))`,
which is the identity on these JSON-representable values.  The constant
`version` field is ignored by `importJSON` and omitted. -/
def exportDoc (s : ListState) : ImportDoc :=
  .parsed (some s.items) s.listName s.listId

/-- First-occurrence deduplication, the semantics of
`Array.from(new Set(l))` in the source. -/
def nubFirst : List String → List String
  | [] => []
  | x :: xs => x :: nubFirst (xs.filter (fun y => !(decide (y = x))))
termination_by l => l.length
decreasing_by
  simp only [List.length_cons]
  exact Nat.lt_succ_of_le (List.length_filter_le _ _)

/-- Does `q` occur at the start of `cs`?  (character-list prefix test). -/
def takesPrefix : List Char → List Char → Bool
  | [], _ => true
  | _ :: _, [] => false
  | q :: qs, c :: cs => decide (q = c) && takesPrefix qs cs

/-- Does `q` occur as a contiguous run somewhere in `cs`? -/
def subAt : List Char → List Char → Bool
  | q, [] => q.isEmpty
  | q, c :: cs => takesPrefix q (c :: cs) || subAt q cs

/-- JavaScript `s.includes(q)`: literal substring containment. -/
def strIncludes (s q : String) : Bool := subAt q.data s.data

/-- The candidate pool of `updateSuggestions`:
`Array.from(new Set([...STARTER_SUGGESTIONS, ...items.map(i => i.name)]))`. -/
def suggestPool (items : List Item) : List String :=
  nubFirst (STARTER_SUGGESTIONS ++ items.map Item.name)

/-- `updateSuggestions`, reduced to the names it displays: the trimmed input
selects the first 12 pool entries when empty, else the pool entries
containing it as a substring, capped at 12. -/
def updateSuggestions (items : List Item) (input : String) : List String :=
  let query := jsTrim input
  if query = "" then (suggestPool items).take 12
  else ((suggestPool items).filter (fun nm => strIncludes nm query)).take 12

/-- What reading one JSON-parsed storage slot can yield: the key is absent
(or holds the empty string, which the source treats as absent via `if
(raw)` / `|| 'false'`), the raw string is present but `JSON.parse` throws,
or parsing succeeds with a value. -/
inductive SlotRead (α : Type) where
  | missing : SlotRead α
  | corrupt : SlotRead α
  | stored : α → SlotRead α
  deriving DecidableEq

/-- The record `loadState` returns. -/
structure LoadedState where
  items : List Item
  dark : Bool
  listName : String
  listId : String
  deriving DecidableEq

/-- Default list name `'קניות לבית'`. -/
def defaultListName : String := "קניות לבית"

/-- `loadState` from the source: each slot is read under its own
`try`/`catch`, so a failure in one slot leaves the defaults of the others
intact.  `nameSlot`/`idSlot` are raw strings (`none` = key absent) and
`freshId` is the `uuid()` computed for the default `listId`. -/
def loadState (itemsSlot : SlotRead (List Item)) (darkSlot : SlotRead Bool)
    (nameSlot : Option String) (idSlot : Option String) (freshId : String) :
    LoadedState :=
  { items := match itemsSlot with | .stored l => l | _ => []
    dark := match darkSlot with | .stored b => b | _ => false
    listName :=
      match nameSlot with
      | some n => if n = "" then defaultListName else n
      | none => defaultListName
    listId :=
      match idSlot with
      | some i => if i = "" then freshId else i
      | none => freshId }

/-- Grouping key used by `render`: `it.category || 'אחרים'`. -/
def catKey (it : Item) : String :=
  if it.category = "" then "אחרים" else it.category

/-- One step of building the insertion-ordered group map
(`if (!groups.has(key)) groups.set(key, []); groups.get(key).push(it)`):
append to the existing group of that key, or append a new group. -/
def insertGroup : List (String × List Item) → String → Item → List (String × List Item)
  | [], k, it => [(k, [it])]
  | (k', g) :: rest, k, it =>
      if k' = k then (k', g ++ [it]) :: rest
      else (k', g) :: insertGroup rest k it

/-- The `groups` map of `render`, as an insertion-ordered association list. -/
def groupByCat (l : List Item) : List (String × List Item) :=
  l.foldl (fun gs it => insertGroup gs (catKey it) it) []

/-- `groups.get(c)`. -/
def lookupGroup : List (String × List Item) → String → Option (List Item)
  | [], _ => none
  | (k, g) :: rest, c => if k = c then some g else lookupGroup rest c

/-- The filtering step of `render`: `todo` keeps unfinished items, `done`
keeps finished ones, anything else keeps all. -/
def filterView (items : List Item) (f : String) : List Item :=
  if f = "todo" then items.filter (fun it => !it.done)
  else if f = "done" then items.filter (fun it => it.done)
  else items

/-- `render`, reduced to the sequence of (category header, items) groups it
emits: the canonical categories in `CATS` order (`CATS.forEach`, emitting
`groups.get(cat)` when present and nonempty), then the remaining groups in
map insertion order (`groups.forEach` skipping `CATS` members). -/
def render (items : List Item) (f : String) : List (String × List Item) :=
  let groups := groupByCat (filterView items f)
  (CATS.filterMap (fun c =>
      match lookupGroup groups c with
      | some g => if g.isEmpty then none else some (c, g)
      | none => none))
    ++ groups.filter (fun kg => !(decide (kg.1 ∈ CATS)))

/-- The `hasItems` flag of `render`: set exactly when some group is emitted;
the empty-state message is shown iff it stays `false`. -/
def renderHasItems (items : List Item) (f : String) : Bool :=
  !(render items f).isEmpty

/-- The grouping map written as a specification: the category keys in
first-encountered order, each paired with the items of that category in
list order. -/
def groupsOf (l : List Item) : List (String × List Item) :=
  (nubFirst (l.map catKey)).map
    (fun k => (k, l.filter (fun it => decide (catKey it = k))))

/-! ## Helper lemmas -/

theorem mergeFirst_eq_none {l : List Item} {nm : String} {q : Int} :
    mergeFirst l nm q = none ↔ ∀ it ∈ l, ¬(it.name = nm ∧ it.done = false) := by
  induction l with
  | nil => simp [mergeFirst]
  | cons it rest ih =>
      by_cases h : it.name = nm ∧ it.done = false
      · simp [mergeFirst, h]
      · simp [mergeFirst, h, Option.map_eq_none', ih]
        intro _ hnm
        by_contra hd
        exact h ⟨hnm, by simpa using hd⟩

theorem mergeFirst_append (pre : List Item) (it : Item) (post : List Item)
    (nm : String) (q : Int) (hn : it.name = nm) (hd : it.done = false)
    (hpre : ∀ j ∈ pre, ¬(j.name = nm ∧ j.done = false)) :
    mergeFirst (pre ++ it :: post) nm q =
      some (pre ++ { it with qty := jsOr1 it.qty + q } :: post) := by
  induction pre with
  | nil => simp [mergeFirst, hn, hd]
  | cons j pre ih =>
      have hj := hpre j (List.mem_cons_self j pre)
      have ih' := ih (fun a ha => hpre a (List.mem_cons_of_mem j ha))
      simp [mergeFirst, hj, ih']

theorem mergeFirst_ids {l l' : List Item} {nm : String} {q : Int}
    (h : mergeFirst l nm q = some l') : l'.map Item.id = l.map Item.id := by
  induction l generalizing l' with
  | nil => simp [mergeFirst] at h
  | cons it rest ih =>
      by_cases hc : it.name = nm ∧ it.done = false
      · simp only [mergeFirst, if_pos hc, Option.some.injEq] at h
        subst h; simp
      · simp only [mergeFirst, if_neg hc, Option.map_eq_some'] at h
        obtain ⟨a, ha, rfl⟩ := h
        simp [ih ha]

theorem mergeFirst_qty {l l' : List Item} {nm : String} {q : Int}
    (h : mergeFirst l nm q = some l') (hq : 1 ≤ q)
    (hall : ∀ it ∈ l, 1 ≤ it.qty) : ∀ it ∈ l', 1 ≤ it.qty := by
  induction l generalizing l' with
  | nil => simp [mergeFirst] at h
  | cons it rest ih =>
      by_cases hc : it.name = nm ∧ it.done = false
      · simp only [mergeFirst, if_pos hc, Option.some.injEq] at h
        subst h
        intro j hj
        rcases List.mem_cons.mp hj with rfl | hj'
        · have h1 : 1 ≤ it.qty := hall it (List.mem_cons_self it rest)
          have : jsOr1 it.qty = it.qty := by
            unfold jsOr1
            rw [if_neg (by omega)]
          simp only [this]
          omega
        · exact hall j (List.mem_cons_of_mem it hj')
      · simp only [mergeFirst, if_neg hc, Option.map_eq_some'] at h
        obtain ⟨a, ha, rfl⟩ := h
        intro j hj
        rcases List.mem_cons.mp hj with rfl | hj'
        · exact hall j (List.mem_cons_self j rest)
        · exact ih ha (fun a' ha' => hall a' (List.mem_cons_of_mem it ha')) j hj'

theorem addItem_of_ne (s : ListState) (inp : AddInput) (fid : String) (now : Int)
    (h : jsTrim inp.name ≠ "") :
    addItem s inp fid now =
      match mergeFirst s.items (jsTrim inp.name) (qtyVal inp.qty) with
      | some l => { s with items := l }
      | none => { s with items := mkItem inp fid now s.listId :: s.items } := by
  simp [addItem, h]

/-! ## Claim theorems -/

/-- C9: calling `addItem` with a name that trims to the empty string (empty
or whitespace-only) leaves the state unchanged: no item is created, no
quantity is merged, and the operation returns without mutation. -/
theorem addItem_blank_noop (s : ListState) (inp : AddInput) (fid : String)
    (now : Int) (h : jsTrim inp.name = "") : addItem s inp fid now = s := by
  simp [addItem, h]

theorem addItem_blank_noop_witness :
    jsTrim "   " = "" ∧
      addItem { items := [], listName := "n", listId := "l" }
          { name := "   ", qty := "2", cat := "c", note := "x" } "i" 5 =
        { items := [], listName := "n", listId := "l" } :=
  ⟨by decide,
   addItem_blank_noop { items := [], listName := "n", listId := "l" }
     { name := "   ", qty := "2", cat := "c", note := "x" } "i" 5 (by decide)⟩

/-- C10: when `addItem` merges, the merge target is the first unfinished
item (in sequence order) whose name equals the trimmed input name; the
whole resulting state is the old one with only that item's `qty` field
replaced (by `(qty || 1) +` the new quantity): the target keeps its
position, its `id`, `name`, `category`, `note`, `done` and `createdAt` are
untouched, the `cat`/`note` arguments of the call are discarded, and every
other item as well as `listName`/`listId` are unchanged. -/
theorem addItem_merge_frame (s : ListState) (inp : AddInput) (fid : String)
    (now : Int) (pre : List Item) (it : Item) (post : List Item)
    (hsplit : s.items = pre ++ it :: post)
    (hn : it.name = jsTrim inp.name) (hd : it.done = false)
    (hpre : ∀ j ∈ pre, ¬(j.name = jsTrim inp.name ∧ j.done = false))
    (hne : jsTrim inp.name ≠ "") :
    addItem s inp fid now =
      { s with items :=
          pre ++ { it with qty := jsOr1 it.qty + qtyVal inp.qty } :: post } := by
  have hm := mergeFirst_append pre it post (jsTrim inp.name) (qtyVal inp.qty)
    hn hd hpre
  rw [addItem_of_ne s inp fid now hne, hsplit, hm]

theorem addItem_merge_frame_witness :
    addItem { items := [{ id := "a", name := "x", qty := 2, category := "c",
                           note := "m", done := false, createdAt := 7, listId := "l" }],
               listName := "n", listId := "l" }
        { name := " x ", qty := "3", cat := "other", note := "ignored" } "fresh" 9 =
      { items := [{ id := "a", name := "x", qty := 5, category := "c",
                     note := "m", done := false, createdAt := 7, listId := "l" }],
         listName := "n", listId := "l" } := by
  have h := addItem_merge_frame
    { items := [{ id := "a", name := "x", qty := 2, category := "c",
                   note := "m", done := false, createdAt := 7, listId := "l" }],
       listName := "n", listId := "l" }
    { name := " x ", qty := "3", cat := "other", note := "ignored" } "fresh" 9
    [] { id := "a", name := "x", qty := 2, category := "c",
          note := "m", done := false, createdAt := 7, listId := "l" } []
    (by decide) (by decide) (by decide) (by simp) (by decide)
  rw [h]
  decide

/-- C1: for a trimmed non-empty name (over states whose quantities are
non-falsy, i.e. nonzero, as every item created by the app satisfies): if
every item with the same name is done (or none matches), a fresh item is
unshifted; if an unfinished item with exactly that name exists, the first
such item's quantity is incremented by the new quantity and no item is
created.  The two conjuncts at concrete inputs are the spec's scenarios:
add("Milk",2) then add("Milk",1) gives one "Milk" of quantity 3, and adding
"Bread" again after completing it gives a second, separate active entry. -/
theorem addItem_merge_or_insert (s : ListState) (inp : AddInput) (fid : String)
    (now : Int) (hname : jsTrim inp.name ≠ "")
    (hq : ∀ it ∈ s.items, it.qty ≠ 0) :
    ((∀ it ∈ s.items, it.name = jsTrim inp.name → it.done = true) →
        (addItem s inp fid now).items = mkItem inp fid now s.listId :: s.items)
    ∧ (∀ pre it post, s.items = pre ++ it :: post →
        it.name = jsTrim inp.name → it.done = false →
        (∀ j ∈ pre, ¬(j.name = jsTrim inp.name ∧ j.done = false)) →
        (addItem s inp fid now).items =
          pre ++ { it with qty := it.qty + qtyVal inp.qty } :: post)
    ∧ (addItem (addItem { items := [], listName := "n", listId := "l" }
          { name := "Milk", qty := "2", cat := "Dairy", note := "" } "id1" 0)
          { name := "Milk", qty := "1", cat := "Dairy", note := "" } "id2" 1).items =
        [{ id := "id1", name := "Milk", qty := 3, category := "Dairy",
            note := "", done := false, createdAt := 0, listId := "l" }]
    ∧ (addItem (toggleDone (addItem { items := [], listName := "n", listId := "l" }
          { name := "Bread", qty := "1", cat := "Bakery", note := "" } "b1" 0) "b1")
          { name := "Bread", qty := "1", cat := "Bakery", note := "" } "b2" 1).items =
        [{ id := "b2", name := "Bread", qty := 1, category := "Bakery",
            note := "", done := false, createdAt := 1, listId := "l" },
         { id := "b1", name := "Bread", qty := 1, category := "Bakery",
            note := "", done := true, createdAt := 0, listId := "l" }] := by
  refine ⟨?_, ?_, by decide, by decide⟩
  · intro hno
    have hmn : mergeFirst s.items (jsTrim inp.name) (qtyVal inp.qty) = none :=
      mergeFirst_eq_none.mpr (by
        rintro it hit ⟨h1, h2⟩
        rw [hno it hit h1] at h2
        exact Bool.noConfusion h2)
    rw [addItem_of_ne s inp fid now hname, hmn]
  · intro pre it post hsplit hn hd hpre
    have hm := mergeFirst_append pre it post (jsTrim inp.name) (qtyVal inp.qty)
      hn hd hpre
    have hq' : it.qty ≠ 0 :=
      hq it (by rw [hsplit]; exact List.mem_append_right _ (List.mem_cons_self _ _))
    have hj : jsOr1 it.qty = it.qty := by unfold jsOr1; rw [if_neg hq']
    rw [addItem_of_ne s inp fid now hname, hsplit, hm, hj]

theorem addItem_merge_or_insert_witness :
    jsTrim "Milk" ≠ "" ∧
      (addItem (addItem { items := [], listName := "n", listId := "l" }
          { name := "Milk", qty := "2", cat := "Dairy", note := "" } "id1" 0)
          { name := "Milk", qty := "1", cat := "Dairy", note := "" } "id2" 1).items =
        [{ id := "id1", name := "Milk", qty := 3, category := "Dairy",
            note := "", done := false, createdAt := 0, listId := "l" }] :=
  ⟨by decide,
   (addItem_merge_or_insert { items := [], listName := "n", listId := "l" }
      { name := "Milk", qty := "2", cat := "Dairy", note := "" } "id0" 0
      (by decide) (by decide)).2.2.1⟩

/-- C4: importing a document whose `items` field is not an array signals the
invalid-file error and returns the state unchanged; a document that fails to
parse signals the distinct load-error and likewise leaves the state
unchanged; the state can change only when parsing succeeded and `items` is
an array. -/
theorem importJSON_guard (s : ListState) (doc : ImportDoc) (g : Nat → String) :
    (doc = .parseError → importJSON s doc g = (s, .loadError))
    ∧ (∀ nm lid, doc = .parsed none nm lid →
        importJSON s doc g = (s, .invalidFile))
    ∧ (∀ raw nm lid, doc = .parsed (some raw) nm lid →
        (importJSON s doc g).2 = .ok)
    ∧ ((importJSON s doc g).1 ≠ s →
        ∃ raw nm lid, doc = .parsed (some raw) nm lid) := by
  refine ⟨?_, ?_, ?_, ?_⟩
  · rintro rfl; rfl
  · rintro nm lid rfl; rfl
  · rintro raw nm lid rfl; rfl
  · intro hne
    cases doc with
    | parseError => exact absurd rfl hne
    | parsed arr nm lid =>
        cases arr with
        | none => exact absurd rfl hne
        | some raw => exact ⟨raw, nm, lid, rfl⟩

theorem importJSON_guard_witness :
    importJSON { items := [], listName := "n", listId := "l" } .parseError
        (fun _ => "u") =
      ({ items := [], listName := "n", listId := "l" }, .loadError) :=
  (importJSON_guard { items := [], listName := "n", listId := "l" }
    .parseError (fun _ => "u")).1 rfl

/-- C8: `loadState` is a total function of the four slots, and each output
field depends only on its own slot: a stored (parsed) value is kept, while
an absent or unparseable slot yields that field's default (`[]`, `false`,
the default list name, the freshly generated identifier) regardless of the
other slots. -/
theorem loadState_slots (itemsSlot : SlotRead (List Item))
    (darkSlot : SlotRead Bool) (nameSlot idSlot : Option String)
    (freshId : String) :
    (∀ l, itemsSlot = .stored l →
        (loadState itemsSlot darkSlot nameSlot idSlot freshId).items = l)
    ∧ ((itemsSlot = .missing ∨ itemsSlot = .corrupt) →
        (loadState itemsSlot darkSlot nameSlot idSlot freshId).items = [])
    ∧ (∀ b, darkSlot = .stored b →
        (loadState itemsSlot darkSlot nameSlot idSlot freshId).dark = b)
    ∧ ((darkSlot = .missing ∨ darkSlot = .corrupt) →
        (loadState itemsSlot darkSlot nameSlot idSlot freshId).dark = false)
    ∧ (∀ n, nameSlot = some n → n ≠ "" →
        (loadState itemsSlot darkSlot nameSlot idSlot freshId).listName = n)
    ∧ ((nameSlot = none ∨ nameSlot = some "") →
        (loadState itemsSlot darkSlot nameSlot idSlot freshId).listName =
          defaultListName)
    ∧ (∀ i, idSlot = some i → i ≠ "" →
        (loadState itemsSlot darkSlot nameSlot idSlot freshId).listId = i)
    ∧ ((idSlot = none ∨ idSlot = some "") →
        (loadState itemsSlot darkSlot nameSlot idSlot freshId).listId =
          freshId) := by
  refine ⟨?_, ?_, ?_, ?_, ?_, ?_, ?_, ?_⟩
  · rintro l rfl; rfl
  · rintro (rfl | rfl) <;> rfl
  · rintro b rfl; rfl
  · rintro (rfl | rfl) <;> rfl
  · rintro n rfl hn; simp [loadState, hn]
  · rintro (rfl | rfl) <;> simp [loadState]
  · rintro i rfl hi; simp [loadState, hi]
  · rintro (rfl | rfl) <;> simp [loadState]

theorem loadState_slots_witness :
    (loadState .corrupt .missing (some "x") none "f").items = []
    ∧ (loadState (SlotRead.corrupt) .missing (some "x") none "f").listName = "x"
    ∧ (loadState (SlotRead.corrupt) .missing (some "x") none "f").listId = "f" :=
  ⟨(loadState_slots .corrupt .missing (some "x") none "f").2.1 (Or.inr rfl),
   (loadState_slots .corrupt .missing (some "x") none "f").2.2.2.2.1 "x" rfl
     (by decide),
   (loadState_slots .corrupt .missing (some "x") none "f").2.2.2.2.2.2.2
     (Or.inl rfl)⟩

/-- C3 (counterexample): the quantity is NOT coerced to at least 1 for every
input string: `parseInt("-3", 10)` is `-3`, which is truthy, so
`parseInt(...) || 1` keeps it and `addItem` creates an item with quantity
`-3 < 1`. -/
theorem addItem_qty_counterexample :
    (addItem { items := [], listName := "n", listId := "l" }
        { name := "x", qty := "-3", cat := "c", note := "" } "id0" 0).items.map
        Item.qty = [-3]
    ∧ ¬ ∀ it ∈ (addItem { items := [], listName := "n", listId := "l" }
        { name := "x", qty := "-3", cat := "c", note := "" } "id0" 0).items,
        1 ≤ it.qty := by
  decide

/-- C3 (amended): `addItem` computes the quantity as `parseInt(input, 10)
|| 1`, so an unparseable input (NaN) or a parse result of `0` defaults to
`1`, but any other parsed integer — including a negative one — is used
as-is.  When the effective quantity is at least 1 and every existing item
has quantity at least 1, every item still has quantity at least 1 after
`addItem`. -/
theorem addItem_qty_min (s : ListState) (inp : AddInput) (fid : String)
    (now : Int) (hq : 1 ≤ qtyVal inp.qty)
    (hall : ∀ it ∈ s.items, 1 ≤ it.qty) :
    (parseIntTen inp.qty = none → qtyVal inp.qty = 1)
    ∧ (parseIntTen inp.qty = some 0 → qtyVal inp.qty = 1)
    ∧ ∀ it ∈ (addItem s inp fid now).items, 1 ≤ it.qty := by
  refine ⟨?_, ?_, ?_⟩
  · intro h; simp [qtyVal, h]
  · intro h; simp [qtyVal, h]
  · by_cases hname : jsTrim inp.name = ""
    · simpa [addItem, hname] using hall
    · cases hm : mergeFirst s.items (jsTrim inp.name) (qtyVal inp.qty) with
      | none =>
          rw [addItem_of_ne s inp fid now hname, hm]
          intro it hit
          rcases List.mem_cons.mp hit with rfl | h'
          · simpa [mkItem] using hq
          · exact hall _ h'
      | some l =>
          rw [addItem_of_ne s inp fid now hname, hm]
          exact mergeFirst_qty hm hq hall

theorem addItem_qty_min_witness :
    1 ≤ qtyVal "2" ∧
      ∀ it ∈ (addItem ⟨[⟨"a", "y", 1, "c", "", false, 0, "l"⟩], "n", "l"⟩
          ⟨"x", "2", "c", ""⟩ "id0" 0).items, 1 ≤ it.qty :=
  ⟨by decide,
   (addItem_qty_min ⟨[⟨"a", "y", 1, "c", "", false, 0, "l"⟩], "n", "l"⟩
      ⟨"x", "2", "c", ""⟩ "id0" 0 (by decide) (by decide)).2.2⟩

theorem itemIds_toggleDone (s : ListState) (id : String) :
    itemIds (toggleDone s id) = itemIds s := by
  unfold itemIds toggleDone
  simp only [List.map_map]
  apply List.map_congr_left
  intro it _
  by_cases h : it.id = id <;> simp [h]

theorem applyOp_nodup (s : ListState) (op : Op)
    (h0 : (itemIds s).Nodup) (hop : opFresh s op = true) :
    (itemIds (applyOp s op)).Nodup := by
  cases op with
  | add inp fid now =>
      by_cases hname : jsTrim inp.name = ""
      · simpa [applyOp, addItem, hname] using h0
      · have hfid : fid ∉ itemIds s := by
          simpa [opFresh] using hop
        cases hm : mergeFirst s.items (jsTrim inp.name) (qtyVal inp.qty) with
        | some l =>
            have : itemIds (addItem s inp fid now) = itemIds s := by
              rw [addItem_of_ne s inp fid now hname, hm]
              exact mergeFirst_ids hm
            simpa [applyOp, this] using h0
        | none =>
            have : itemIds (addItem s inp fid now) = fid :: itemIds s := by
              rw [addItem_of_ne s inp fid now hname, hm]
              rfl
            rw [applyOp, this]
            exact List.nodup_cons.mpr ⟨hfid, h0⟩
  | toggle id => simpa [applyOp, itemIds_toggleDone] using h0
  | remove id =>
      exact ((List.filter_sublist s.items).map Item.id).nodup h0
  | clear =>
      exact ((List.filter_sublist s.items).map Item.id).nodup h0

/-- C2: starting from pairwise-distinct item identifiers, and assuming the
identifier supplied to each `add` along the run is not already present
(the `uuid()` contract), every prefix of a sequence of
add/toggle/remove/clear operations leaves the identifiers in `items`
pairwise distinct. -/
theorem applyOps_nodup_ids (s : ListState) (ops : List Op)
    (h0 : (itemIds s).Nodup) (hf : freshIds s ops = true) :
    ∀ n : Nat, (itemIds (applyOps s (ops.take n))).Nodup := by
  induction ops generalizing s with
  | nil => intro n; simpa [applyOps] using h0
  | cons op rest ih =>
      intro n
      cases n with
      | zero => simpa [applyOps] using h0
      | succ m =>
          have hf' : opFresh s op = true ∧ freshIds (applyOp s op) rest = true := by
            simpa [freshIds, Bool.and_eq_true] using hf
          have h1 := applyOp_nodup s op h0 hf'.1
          simpa [applyOps, List.take_succ_cons, List.foldl_cons] using
            ih (applyOp s op) h1 hf'.2 m

theorem applyOps_nodup_ids_witness :
    (itemIds ⟨[⟨"a", "x", 1, "c", "", false, 0, "l"⟩], "n", "l"⟩).Nodup
    ∧ freshIds ⟨[⟨"a", "x", 1, "c", "", false, 0, "l"⟩], "n", "l"⟩
        [.add ⟨"y", "1", "c", ""⟩ "b" 0, .toggle "a", .clear] = true
    ∧ (itemIds (applyOps ⟨[⟨"a", "x", 1, "c", "", false, 0, "l"⟩], "n", "l"⟩
        ([.add ⟨"y", "1", "c", ""⟩ "b" 0, .toggle "a", .clear].take 3))).Nodup :=
  ⟨by decide, by decide,
   applyOps_nodup_ids ⟨[⟨"a", "x", 1, "c", "", false, 0, "l"⟩], "n", "l"⟩
     [.add ⟨"y", "1", "c", ""⟩ "b" 0, .toggle "a", .clear]
     (by decide) (by decide) 3⟩

theorem assignIds_length (l : List Item) (g : Nat → String) (n : Nat) :
    (assignIds l g n).length = l.length := by
  induction l generalizing n with
  | nil => rfl
  | cons it rest ih => simp [assignIds, ih]

theorem assignIds_getElem (l : List Item) (g : Nat → String) (n i : Nat) :
    (assignIds l g n)[i]? =
      (l[i]?).map (fun it => if it.id = "" then { it with id := g (n + i) } else it) := by
  induction l generalizing n i with
  | nil => simp [assignIds]
  | cons it rest ih =>
      cases i with
      | zero => simp [assignIds]
      | succ j =>
          have harith : n + 1 + j = n + (j + 1) := by omega
          simp only [assignIds, List.getElem?_cons_succ, ih (n + 1) j, harith]

/-- C5: exporting a state and importing the exported document (the JSON
value round-trip `parse(serialize(state))` being the identity on the
document) restores `listName` and `listId` and yields an item sequence of
the same length in which each item equals the original up to the
identifier, and every item that had an identifier keeps it (only items
lacking one are reassigned). -/
theorem export_import_roundtrip (s : ListState) (g : Nat → String) :
    ((importJSON s (exportDoc s) g).1).items.length = s.items.length
    ∧ (∀ (i : Nat) (o ri : Item), s.items[i]? = some o →
        ((importJSON s (exportDoc s) g).1).items[i]? = some ri →
        ({ ri with id := o.id } = o ∧ (o.id ≠ "" → ri.id = o.id)))
    ∧ ((importJSON s (exportDoc s) g).1).listName = s.listName
    ∧ ((importJSON s (exportDoc s) g).1).listId = s.listId := by
  have h1 : ((importJSON s (exportDoc s) g).1).items = assignIds s.items g 0 := rfl
  refine ⟨?_, ?_, ?_, ?_⟩
  · rw [h1, assignIds_length]
  · intro i o ri ho hri
    rw [h1, assignIds_getElem, ho] at hri
    simp only [Option.map_some', Option.some.injEq] at hri
    by_cases hid : o.id = ""
    · rw [if_pos hid] at hri
      subst hri
      exact ⟨by cases o; simp_all, fun hc => absurd hid hc⟩
    · rw [if_neg hid] at hri
      subst hri
      exact ⟨by cases o; rfl, fun _ => rfl⟩
  · show (if s.listName = "" then s.listName else s.listName) = s.listName
    rw [ite_self]
  · show (if s.listId = "" then s.listId else s.listId) = s.listId
    rw [ite_self]

theorem export_import_roundtrip_witness :
    (⟨[⟨"", "x", 1, "c", "", false, 0, "l"⟩, ⟨"keep", "y", 2, "c", "", true, 0, "l"⟩],
        "n", "l"⟩ : ListState).items[1]? =
      some ⟨"keep", "y", 2, "c", "", true, 0, "l"⟩
    ∧ ((importJSON ⟨[⟨"", "x", 1, "c", "", false, 0, "l"⟩,
          ⟨"keep", "y", 2, "c", "", true, 0, "l"⟩], "n", "l"⟩
        (exportDoc ⟨[⟨"", "x", 1, "c", "", false, 0, "l"⟩,
          ⟨"keep", "y", 2, "c", "", true, 0, "l"⟩], "n", "l"⟩)
        (fun _ => "fresh")).1).items[1]? =
      some ⟨"keep", "y", 2, "c", "", true, 0, "l"⟩
    ∧ ("keep" ≠ "" → (⟨"keep", "y", 2, "c", "", true, 0, "l"⟩ : Item).id = "keep") :=
  ⟨by decide, by decide,
   fun h =>
     ((export_import_roundtrip ⟨[⟨"", "x", 1, "c", "", false, 0, "l"⟩,
          ⟨"keep", "y", 2, "c", "", true, 0, "l"⟩], "n", "l"⟩ (fun _ => "fresh")).2.1
        1 ⟨"keep", "y", 2, "c", "", true, 0, "l"⟩ ⟨"keep", "y", 2, "c", "", true, 0, "l"⟩
        (by decide) (by decide)).2 h⟩

theorem mem_nubFirst (l : List String) (x : String) : x ∈ nubFirst l ↔ x ∈ l := by
  induction l using nubFirst.induct with
  | case1 => simp [nubFirst]
  | case2 a as ih =>
      rw [nubFirst]
      simp only [List.mem_cons]
      rw [ih]
      simp only [List.mem_filter]
      constructor
      · rintro (rfl | ⟨h, _⟩)
        · exact Or.inl rfl
        · exact Or.inr h
      · intro h
        by_cases hxa : x = a
        · exact Or.inl hxa
        · exact Or.inr ⟨h.resolve_left hxa, by simp [hxa]⟩

theorem nubFirst_nodup (l : List String) : (nubFirst l).Nodup := by
  induction l using nubFirst.induct with
  | case1 => simp [nubFirst]
  | case2 a as ih =>
      rw [nubFirst]
      refine List.nodup_cons.mpr ⟨?_, ih⟩
      intro ha
      have := (mem_nubFirst _ a).mp ha
      simp [List.mem_filter] at this

theorem suggestPool_nodup (items : List Item) : (suggestPool items).Nodup :=
  nubFirst_nodup _

/-- C7: for every query and state, the suggestion list has at most 12
entries, no duplicates, and draws only from the candidate pool (the
first-seen-order deduplication of the starter vocabulary followed by the
names in `items`); an empty trimmed query yields the first 12 pool entries,
and a non-empty one yields exactly the pool entries containing the query as
a literal substring, in pool order, capped at 12. -/
theorem updateSuggestions_spec (items : List Item) (input : String) :
    (updateSuggestions items input).length ≤ 12
    ∧ (updateSuggestions items input).Nodup
    ∧ (∀ nm ∈ updateSuggestions items input, nm ∈ suggestPool items)
    ∧ (jsTrim input = "" →
        updateSuggestions items input = (suggestPool items).take 12)
    ∧ (jsTrim input ≠ "" →
        updateSuggestions items input =
          ((suggestPool items).filter
            (fun nm => strIncludes nm (jsTrim input))).take 12) := by
  refine ⟨?_, ?_, ?_, ?_, ?_⟩
  · by_cases h : jsTrim input = "" <;>
      simp [updateSuggestions, h, List.length_take_le]
  · by_cases h : jsTrim input = ""
    · simp only [updateSuggestions, if_pos h]
      exact (List.take_sublist _ _).nodup (suggestPool_nodup items)
    · simp only [updateSuggestions, if_neg h]
      exact ((List.take_sublist _ _).trans (List.filter_sublist _)).nodup
        (suggestPool_nodup items)
  · intro nm hnm
    by_cases h : jsTrim input = ""
    · simp only [updateSuggestions, if_pos h] at hnm
      exact (List.take_sublist _ _).mem hnm
    · simp only [updateSuggestions, if_neg h] at hnm
      exact ((List.take_sublist _ _).trans (List.filter_sublist _)).mem hnm
  · intro h; simp [updateSuggestions, h]
  · intro h; simp [updateSuggestions, h]

theorem updateSuggestions_spec_witness :
    jsTrim " חלב " ≠ "" ∧
      updateSuggestions [] " חלב " =
        ((suggestPool []).filter
          (fun nm => strIncludes nm (jsTrim " חלב "))).take 12 :=
  ⟨by decide, (updateSuggestions_spec [] " חלב ").2.2.2.2 (by decide)⟩

theorem groupsOf_cons (j : Item) (L : List Item) :
    groupsOf (j :: L) =
      (catKey j, (j :: L).filter (fun it => decide (catKey it = catKey j)))
        :: groupsOf (L.filter (fun it => !(decide (catKey it = catKey j)))) := by
  unfold groupsOf
  rw [List.map_cons, nubFirst, List.map_cons]
  congr 1
  have hmf : (L.filter (fun it => !(decide (catKey it = catKey j)))).map catKey
      = (L.map catKey).filter (fun y => !(decide (y = catKey j))) := by
    rw [List.filter_map]
    rfl
  rw [hmf]
  apply List.map_congr_left
  intro k hk
  have hkmem := (mem_nubFirst _ k).mp hk
  rw [List.mem_filter] at hkmem
  have hkne : ¬ (k = catKey j) := by simpa using hkmem.2
  have h1 : (j :: L).filter (fun it => decide (catKey it = k))
      = L.filter (fun it => decide (catKey it = k)) := by
    exact List.filter_cons_of_neg (by simpa using fun h : catKey j = k => hkne h.symm)
  have h2 : (L.filter (fun it => !(decide (catKey it = catKey j)))).filter
        (fun it => decide (catKey it = k))
      = L.filter (fun it => decide (catKey it = k)) := by
    rw [List.filter_filter]
    apply List.filter_congr
    intro it _
    by_cases hik : catKey it = k
    · have hnj : ¬ (catKey it = catKey j) := by rw [hik]; exact hkne
      simp [hik, hnj]
      exact hkne
    · simp [hik]
  rw [h1, h2]

theorem groupByCat_snoc (l : List Item) (x : Item) :
    groupByCat (l ++ [x]) = insertGroup (groupByCat l) (catKey x) x := by
  unfold groupByCat
  rw [List.foldl_append]
  rfl

theorem groupsOf_snoc (l : List Item) (x : Item) :
    groupsOf (l ++ [x]) = insertGroup (groupsOf l) (catKey x) x := by
  have key : ∀ (n : Nat) (l : List Item), l.length ≤ n → ∀ x : Item,
      groupsOf (l ++ [x]) = insertGroup (groupsOf l) (catKey x) x := by
    intro n
    induction n with
    | zero =>
        intro l hl x
        have hnil : l = [] := List.eq_nil_of_length_eq_zero (Nat.le_zero.mp hl)
        subst hnil
        rw [List.nil_append, groupsOf_cons]
        simp [groupsOf, nubFirst, insertGroup]
    | succ n ih =>
        intro l hl x
        cases l with
        | nil =>
            rw [List.nil_append, groupsOf_cons]
            simp [groupsOf, nubFirst, insertGroup]
        | cons j rest =>
            have hrest : rest.length ≤ n := Nat.succ_le_succ_iff.mp hl
            rw [List.cons_append, groupsOf_cons, groupsOf_cons]
            by_cases hk : catKey x = catKey j
            · have e1 : (j :: (rest ++ [x])) = (j :: rest) ++ [x] := by simp
              rw [e1, List.filter_append, List.filter_append]
              have hx1 : List.filter (fun it => decide (catKey it = catKey j)) [x]
                  = [x] := by simp [hk]
              have hx2 : List.filter (fun it => !(decide (catKey it = catKey j))) [x]
                  = [] := by simp [hk]
              rw [hx1, hx2, List.append_nil]
              rw [insertGroup, if_pos hk.symm]
            · have e1 : (j :: (rest ++ [x])) = (j :: rest) ++ [x] := by simp
              rw [e1, List.filter_append, List.filter_append]
              have hx1 : List.filter (fun it => decide (catKey it = catKey j)) [x]
                  = [] := by simp [hk]
              have hx2 : List.filter (fun it => !(decide (catKey it = catKey j))) [x]
                  = [x] := by simp [hk]
              rw [hx1, hx2, List.append_nil]
              rw [ih (rest.filter (fun it => !(decide (catKey it = catKey j))))
                    (le_trans (List.length_filter_le _ _) hrest) x]
              rw [insertGroup, if_neg (fun h => hk h.symm)]
  exact key l.length l le_rfl x

theorem groupByCat_eq_groupsOf (l : List Item) : groupByCat l = groupsOf l := by
  induction l using List.reverseRecOn with
  | nil => simp [groupByCat, groupsOf, nubFirst]
  | append_singleton l x ih => rw [groupByCat_snoc, groupsOf_snoc, ih]

theorem lookupGroup_map (F : String → List Item) (ks : List String) (c : String) :
    lookupGroup (ks.map (fun k => (k, F k))) c =
      if c ∈ ks then some (F c) else none := by
  induction ks with
  | nil => simp [lookupGroup]
  | cons k ks ih =>
      rw [List.map_cons, lookupGroup]
      by_cases hk : k = c
      · subst hk; simp
      · rw [if_neg hk, ih]
        by_cases hc : c ∈ ks
        · rw [if_pos hc, if_pos (List.mem_cons_of_mem k hc)]
        · rw [if_neg hc, if_neg (by
            intro hmem
            rcases List.mem_cons.mp hmem with h | h
            · exact hk h.symm
            · exact hc h)]

theorem filterMap_congr_filter {α β : Type} (f : α → Option β) (p : α → Bool)
    (g : α → β) (h : ∀ c, f c = if p c = true then some (g c) else none)
    (cs : List α) : cs.filterMap f = (cs.filter p).map g := by
  induction cs with
  | nil => simp
  | cons c cs ih =>
      rw [List.filterMap_cons, List.filter_cons, h c]
      cases hpc : p c with
      | false => simp [hpc, ih]
      | true => simp [hpc, ih]

theorem filter_catKey_nonempty (l : List Item) (c : String)
    (h : c ∈ l.map catKey) :
    (l.filter (fun it => decide (catKey it = c))).isEmpty = false := by
  obtain ⟨it, hit, rfl⟩ := List.mem_map.mp h
  have hm : it ∈ l.filter (fun it2 => decide (catKey it2 = catKey it)) :=
    List.mem_filter.mpr ⟨hit, by simp⟩
  cases he : (l.filter (fun it2 => decide (catKey it2 = catKey it))).isEmpty
  · rfl
  · rw [List.isEmpty_iff] at he
    rw [he] at hm
    simp at hm

theorem render_eq (items : List Item) (f : String) :
    render items f =
      (CATS.filter
          (fun c => decide (c ∈ (filterView items f).map catKey))).map
        (fun c => (c, (filterView items f).filter
          (fun it => decide (catKey it = c))))
      ++ ((nubFirst ((filterView items f).map catKey)).filter
            (fun k => !(decide (k ∈ CATS)))).map
          (fun k => (k, (filterView items f).filter
            (fun it => decide (catKey it = k)))) := by
  simp only [render]
  rw [groupByCat_eq_groupsOf]
  unfold groupsOf
  congr 1
  · apply filterMap_congr_filter
    intro c
    rw [lookupGroup_map]
    by_cases hc : c ∈ nubFirst ((filterView items f).map catKey)
    · have hc' : c ∈ (filterView items f).map catKey := (mem_nubFirst _ _).mp hc
      rw [if_pos hc]
      simp [filter_catKey_nonempty _ _ hc', hc']
    · have hc' : ¬ c ∈ (filterView items f).map catKey :=
        fun h => hc ((mem_nubFirst _ _).mpr h)
      rw [if_neg hc]
      simp [hc']
  · rw [List.filter_map]
    rfl

theorem renderHasItems_iff (items : List Item) (f : String) :
    (renderHasItems items f = false ↔ filterView items f = []) := by
  constructor
  · intro h
    have hre : render items f = [] := by
      have hb : (render items f).isEmpty = true := by
        simpa [renderHasItems] using h
      exact List.isEmpty_iff.mp hb
    by_contra hne
    obtain ⟨it, hit⟩ := List.exists_mem_of_ne_nil _ hne
    have hk : catKey it ∈ (filterView items f).map catKey :=
      List.mem_map_of_mem catKey hit
    rw [render_eq] at hre
    rcases List.append_eq_nil.mp hre with ⟨hA, hB⟩
    rw [List.map_eq_nil_iff] at hA
    rw [List.map_eq_nil_iff] at hB
    by_cases hc : catKey it ∈ CATS
    · have hmem : catKey it ∈ CATS.filter
          (fun c => decide (c ∈ (filterView items f).map catKey)) :=
        List.mem_filter.mpr ⟨hc, by simpa using hk⟩
      rw [hA] at hmem
      simp at hmem
    · have hmem : catKey it ∈ (nubFirst ((filterView items f).map catKey)).filter
          (fun k => !(decide (k ∈ CATS))) :=
        List.mem_filter.mpr ⟨(mem_nubFirst _ _).mpr hk, by simpa using hc⟩
      rw [hB] at hmem
      simp at hmem
  · intro h
    simp [renderHasItems, render_eq, h, nubFirst]

/-- C6: `render` emits exactly the filter-selected subset (`todo` keeps the
unfinished items, `done` the finished ones, anything else all), grouped by
category key: first the canonical `CATS` categories, in `CATS` order,
restricted to those present in the subset, then the remaining categories in
first-encountered order; each group holds exactly the subset's items of
that category in subset order.  The `hasItems` flag stays false (empty-state
message shown) precisely when the filtered subset is empty.  The last
conjunct is the spec's scenario: filter `done` over a done-Dairy item and
an active-Produce item renders only the Dairy group with the one completed
item. -/
theorem render_spec (items : List Item) (f : String) :
    (render items f =
      (CATS.filter
          (fun c => decide (c ∈ (filterView items f).map catKey))).map
        (fun c => (c, (filterView items f).filter
          (fun it => decide (catKey it = c))))
      ++ ((nubFirst ((filterView items f).map catKey)).filter
            (fun k => !(decide (k ∈ CATS)))).map
          (fun k => (k, (filterView items f).filter
            (fun it => decide (catKey it = k)))))
    ∧ (renderHasItems items f = false ↔ filterView items f = [])
    ∧ filterView items "todo" = items.filter (fun it => !it.done)
    ∧ filterView items "done" = items.filter (fun it => it.done)
    ∧ (f ≠ "todo" → f ≠ "done" → filterView items f = items)
    ∧ render [⟨"1", "cheese", 1, "Dairy", "", true, 0, "l"⟩,
        ⟨"2", "apple", 1, "Produce", "", false, 0, "l"⟩] "done" =
      [("Dairy", [⟨"1", "cheese", 1, "Dairy", "", true, 0, "l"⟩])] := by
  refine ⟨render_eq items f, renderHasItems_iff items f, ?_, ?_, ?_, by decide⟩
  · simp [filterView]
  · simp [filterView]
  · intro h1 h2
    simp only [filterView]
    rw [if_neg h1, if_neg h2]

theorem render_spec_witness :
    ("all" : String) ≠ "todo" ∧ ("all" : String) ≠ "done" ∧
      filterView [⟨"1", "cheese", 1, "Dairy", "", true, 0, "l"⟩] "all" =
        [⟨"1", "cheese", 1, "Dairy", "", true, 0, "l"⟩] :=
  ⟨by decide, by decide,
   (render_spec [⟨"1", "cheese", 1, "Dairy", "", true, 0, "l"⟩] "all").2.2.2.2.1
     (by decide) (by decide)⟩
end Grocery
